import Mathlib

/-!
Verification of the STEMNote drawing core.

Shallow embedding of the drawing subsystem:
  - the drawing document reducer (src/src/components/DrawingCanvas.tsx,
    drawingReducer, capHistory, pushHistory),
  - the geometry kernel (distanceSq, distanceToSegmentSq, isPointNearStroke),
  - pen stroke capture (handlePenStart, handlePenMove),
  - the eraser tap dispatch (handleEraserEnd),
  - export size validation and region output sizing
    (src/src/utils/exportDrawing.ts).

JavaScript numbers are modelled as exact rationals; Math.round is the
round-half-up rounding of Mathlib (round x = floor (x + 1/2)), matching
Math.round on the nonnegative values that occur here.  The Skia surface
allocation, path drawing and PNG encoding are external FFI calls; the
export functions are embedded up to that boundary, returning the fully
validated render plan that is handed to Skia.
-/

namespace STEMNote

/-- From src/src/types/models.ts: a point in the logical canvas space. -/
structure Point where
  x : ℚ
  y : ℚ
deriving DecidableEq

/-- From src/src/types/models.ts: one committed stroke.  The constant
field tool is always the string pen and is omitted. -/
structure Stroke where
  id : String
  points : List Point
  color : String
  width : ℚ
  timestamp : ℤ
deriving DecidableEq

/-- From src/src/types/models.ts: the serializable drawing document. -/
structure DrawingData where
  version : ℤ
  strokes : List Stroke
deriving DecidableEq

/-- From src/src/types/models.ts: a selection rectangle. -/
structure SelectionRect where
  x : ℚ
  y : ℚ
  width : ℚ
  height : ℚ
deriving DecidableEq

/-- From src/src/utils/exportDrawing.ts: a width-height pair. -/
structure ExportSize where
  width : ℚ
  height : ℚ
deriving DecidableEq

/- Constants from src/src/components/DrawingCanvas.tsx lines 16-24. -/

def MIN_POINT_DISTANCE : ℚ := 2

def MIN_POINT_DISTANCE_SQ : ℚ := MIN_POINT_DISTANCE * MIN_POINT_DISTANCE

def ERASER_TAP_SLOP : ℚ := 12

def ERASER_TAP_SLOP_SQ : ℚ := ERASER_TAP_SLOP * ERASER_TAP_SLOP

def ERASER_HIT_PADDING : ℚ := 12

def MAX_HISTORY : ℕ := 20

/-- HistoryStack: a stack of full strokes snapshots. -/
abbrev HistoryStack := List (List Stroke)

/-- The reducer state: strokes plus the two history stacks. -/
structure DrawingState where
  strokes : List Stroke
  undoStack : HistoryStack
  redoStack : HistoryStack
deriving DecidableEq

/-- The reducer actions (DrawingAction in DrawingCanvas.tsx lines 34-40). -/
inductive DrawingAction where
  | set (strokes : List Stroke)
  | add (stroke : Stroke)
  | erase (strokeId : String)
  | clear
  | undo
  | redo
deriving DecidableEq

/-- capHistory (DrawingCanvas.tsx lines 42-47): keep only the newest
MAX_HISTORY entries, dropping from the front. -/
def capHistory (stack : HistoryStack) : HistoryStack :=
  if stack.length ≤ MAX_HISTORY then stack
  else stack.drop (stack.length - MAX_HISTORY)

/-- pushHistory (DrawingCanvas.tsx lines 49-51): append a snapshot, then cap. -/
def pushHistory (stack : HistoryStack) (snapshot : List Stroke) : HistoryStack :=
  capHistory (stack ++ [snapshot])

/-- drawingReducer (DrawingCanvas.tsx lines 53-112).  The JavaScript index
access undoStack[length - 1] and slice(0, -1) become getLast? and dropLast;
the length === 0 early returns become the none branches. -/
def drawingReducer (state : DrawingState) (action : DrawingAction) : DrawingState :=
  match action with
  | .set strokes => ⟨strokes, [], []⟩
  | .add stroke =>
      ⟨state.strokes ++ [stroke], pushHistory state.undoStack state.strokes, []⟩
  | .erase strokeId =>
      if state.strokes.any (fun stroke => stroke.id == strokeId) then
        ⟨state.strokes.filter (fun stroke => stroke.id != strokeId),
         pushHistory state.undoStack state.strokes, []⟩
      else state
  | .clear =>
      if state.strokes.length = 0 then state
      else ⟨[], pushHistory state.undoStack state.strokes, []⟩
  | .undo =>
      match state.undoStack.getLast? with
      | none => state
      | some previous =>
          ⟨previous, state.undoStack.dropLast, pushHistory state.redoStack state.strokes⟩
  | .redo =>
      match state.redoStack.getLast? with
      | none => state
      | some next =>
          ⟨next, pushHistory state.undoStack state.strokes, state.redoStack.dropLast⟩

/-- The reducer initial state (DrawingCanvas.tsx lines 198-202). -/
def initialState : DrawingState := ⟨[], [], []⟩

/-- A sequence of dispatched actions applied in order. -/
def applyActions (actions : List DrawingAction) (s : DrawingState) : DrawingState :=
  actions.foldl drawingReducer s

/-- distanceSq (DrawingCanvas.tsx lines 114-118). -/
def distanceSq (a b : Point) : ℚ :=
  let dx := a.x - b.x
  let dy := a.y - b.y
  dx * dx + dy * dy

/-- distanceToSegmentSq (DrawingCanvas.tsx lines 120-136). -/
def distanceToSegmentSq (point a b : Point) : ℚ :=
  let vx := b.x - a.x
  let vy := b.y - a.y
  let wx := point.x - a.x
  let wy := point.y - a.y
  let c1 := vx * wx + vy * wy
  if c1 ≤ 0 then distanceSq point a
  else
    let c2 := vx * vx + vy * vy
    if c2 ≤ c1 then distanceSq point b
    else
      let t := c1 / c2
      distanceSq point ⟨a.x + t * vx, a.y + t * vy⟩

/-- isPointNearStroke (DrawingCanvas.tsx lines 138-156).  The loop over
indices 1..length-1 tests the consecutive pairs, which are the elements of
points.zip points.tail. -/
def isPointNearStroke (point : Point) (stroke : Stroke) : Bool :=
  match stroke.points with
  | [] => false
  | [p] =>
      let tolerance := stroke.width / 2 + ERASER_HIT_PADDING
      decide (distanceSq point p ≤ tolerance * tolerance)
  | points =>
      let tolerance := stroke.width / 2 + ERASER_HIT_PADDING
      (points.zip points.tail).any
        (fun ab => decide (distanceToSegmentSq point ab.1 ab.2 ≤ tolerance * tolerance))

/-- handlePenStart (DrawingCanvas.tsx lines 273-279): the first point of a
gesture is recorded unconditionally. -/
def handlePenStart (point : Point) : List Point := [point]

/-- handlePenMove (DrawingCanvas.tsx lines 281-293): append the moved-to
point only when no last point exists or the squared distance from the last
recorded point is at least MIN_POINT_DISTANCE_SQ. -/
def handlePenMove (currentPoints : List Point) (point : Point) : List Point :=
  match currentPoints.getLast? with
  | none => currentPoints ++ [point]
  | some lastPoint =>
      if MIN_POINT_DISTANCE_SQ ≤ distanceSq lastPoint point then currentPoints ++ [point]
      else currentPoints

/-- A full pen gesture: the start point, then the move handler folded over
the moved-to points. -/
def penCapture (start : Point) (moves : List Point) : List Point :=
  moves.foldl handlePenMove (handlePenStart start)

/-- handleEraserEnd (DrawingCanvas.tsx lines 330-343): when a start point
was recorded and the moved flag is clear, scan the strokes from last to
first and dispatch erase for the first stroke near the tap point. -/
def handleEraserEnd (eraserStart : Option Point) (eraserMoved : Bool)
    (point : Point) (state : DrawingState) : DrawingState :=
  match eraserStart with
  | none => state
  | some _ =>
      if eraserMoved then state
      else
        match state.strokes.reverse.find? (fun stroke => isPointNearStroke point stroke) with
        | none => state
        | some stroke => drawingReducer state (.erase stroke.id)

/- Export (src/src/utils/exportDrawing.ts). -/

def MAX_REGION_OUTPUT_DIM : ℤ := 2048

/-- The transform computed by renderDrawingToPngBase64 and handed to Skia. -/
structure RenderPlan where
  outputWidth : ℚ
  outputHeight : ℚ
  scale : ℚ
  offsetX : ℚ
  offsetY : ℚ
deriving DecidableEq

/-- renderDrawingToPngBase64 (exportDrawing.ts lines 50-95), embedded up to
the Skia boundary: the validation throw becomes the error branch, and the
value handed to Skia (surface size, scale, centering offsets) is returned. -/
def renderDrawingToPngBase64 (drawingData : DrawingData)
    (logicalSize outputSize : ExportSize) : Except String RenderPlan :=
  if logicalSize.width ≤ 0 ∨ logicalSize.height ≤ 0 then
    .error "Invalid logical canvas size for export."
  else
    let scaleX := outputSize.width / logicalSize.width
    let scaleY := outputSize.height / logicalSize.height
    let scale := min scaleX scaleY
    let offsetX := (outputSize.width - logicalSize.width * scale) / 2
    let offsetY := (outputSize.height - logicalSize.height * scale) / 2
    .ok ⟨outputSize.width, outputSize.height, scale, offsetX, offsetY⟩

/-- The output dimensions of renderRegionToPngBase64 before the minimum
clamp (exportDrawing.ts lines 109-121): aspect-ratio branch with 4x
magnification capped at MAX_REGION_OUTPUT_DIM. -/
def regionPreSize (selection : SelectionRect) : ℤ × ℤ :=
  let aspectRatio := selection.width / selection.height
  if 1 ≤ aspectRatio then
    let outputWidth := min MAX_REGION_OUTPUT_DIM (round (selection.width * 4))
    (outputWidth, round ((outputWidth : ℚ) / aspectRatio))
  else
    let outputHeight := min MAX_REGION_OUTPUT_DIM (round (selection.height * 4))
    (round ((outputHeight : ℚ) * aspectRatio), outputHeight)

/-- The output dimension computation of renderRegionToPngBase64
(exportDrawing.ts lines 108-125): the pre-clamp pair, then both
dimensions floored at 100 (lines 124-125). -/
def computeRegionOutputSize (selection : SelectionRect) : ℤ × ℤ :=
  (max (regionPreSize selection).1 100, max (regionPreSize selection).2 100)

/-- renderRegionToPngBase64 (exportDrawing.ts lines 99-165), embedded up to
the Skia boundary: the selection validation throw becomes the error branch;
the logicalSize parameter is not read by the body; the surface dimensions
handed to Skia are returned. -/
def renderRegionToPngBase64 (drawingData : DrawingData)
    (logicalSize : ExportSize) (selection : SelectionRect) : Except String (ℤ × ℤ) :=
  if selection.width ≤ 0 ∨ selection.height ≤ 0 then
    .error "Invalid selection rectangle."
  else
    .ok (computeRegionOutputSize selection)

/-- Modelled from the spec: the Selection Tracker rectangle normalization
(spec section 4.5).  The DrawingCanvas variant with selection support is
not among the source files; only its props appear in PageEditorScreen.tsx.
Spec: x = min(anchor.x, current.x), y = min(anchor.y, current.y),
width = abs(current.x - anchor.x), height = abs(current.y - anchor.y). -/
def normalizeSelection (anchor current : Point) : SelectionRect :=
  ⟨min anchor.x current.x, min anchor.y current.y,
   |current.x - anchor.x|, |current.y - anchor.y|⟩

/- Concrete sample data shared by the witness and counterexample theorems. -/

def demoPoint : Point := ⟨0, 0⟩

def demoStroke (id : String) : Stroke := ⟨id, [demoPoint], "#111111", 3, 0⟩

def demoState1 : DrawingState := ⟨[demoStroke "t1"], [], [[demoStroke "old"]]⟩

/- History stack lemmas. -/

theorem pushHistory_getLast (stack : HistoryStack) (snapshot : List Stroke) :
    (pushHistory stack snapshot).getLast? = some snapshot := by
  unfold pushHistory capHistory
  by_cases h : (stack ++ [snapshot]).length ≤ MAX_HISTORY
  · rw [if_pos h, List.getLast?_concat]
  · have hlen : (stack ++ [snapshot]).length - MAX_HISTORY ≤ stack.length := by
      simp only [List.length_append, List.length_singleton, MAX_HISTORY] at *
      omega
    rw [if_neg h, List.drop_append_of_le_length hlen, List.getLast?_concat]

theorem pushHistory_length_le {stack : HistoryStack} (snapshot : List Stroke)
    (h : stack.length ≤ MAX_HISTORY) :
    (pushHistory stack snapshot).length ≤ MAX_HISTORY := by
  unfold pushHistory capHistory
  by_cases h2 : (stack ++ [snapshot]).length ≤ MAX_HISTORY
  · rw [if_pos h2]; exact h2
  · rw [if_neg h2, List.length_drop]
    simp only [List.length_append, List.length_singleton, MAX_HISTORY] at *
    omega

theorem pushHistory_nil (snapshot : List Stroke) : pushHistory [] snapshot = [snapshot] := rfl

theorem pushHistory_full {stack : HistoryStack} (snapshot : List Stroke)
    (h : stack.length = MAX_HISTORY) :
    pushHistory stack snapshot = stack.drop 1 ++ [snapshot] := by
  unfold pushHistory capHistory
  have h2 : ¬ (stack ++ [snapshot]).length ≤ MAX_HISTORY := by
    simp only [List.length_append, List.length_singleton, MAX_HISTORY] at *
    omega
  have h3 : (stack ++ [snapshot]).length - MAX_HISTORY = 1 := by
    simp only [List.length_append, List.length_singleton, MAX_HISTORY] at *
    omega
  have h4 : 1 ≤ stack.length := by
    simp only [MAX_HISTORY] at h
    omega
  simp only [h2, if_false, h3]
  rw [List.drop_append_of_le_length h4]

/- Reducer case lemmas. -/

theorem drawingReducer_add (s : DrawingState) (stroke : Stroke) :
    drawingReducer s (.add stroke)
      = ⟨s.strokes ++ [stroke], pushHistory s.undoStack s.strokes, []⟩ := rfl

theorem drawingReducer_erase_pos {s : DrawingState} {strokeId : String}
    (h : s.strokes.any (fun stroke => stroke.id == strokeId) = true) :
    drawingReducer s (.erase strokeId)
      = ⟨s.strokes.filter (fun stroke => stroke.id != strokeId),
         pushHistory s.undoStack s.strokes, []⟩ := by
  simp [drawingReducer, h]

theorem drawingReducer_erase_neg {s : DrawingState} {strokeId : String}
    (h : s.strokes.any (fun stroke => stroke.id == strokeId) = false) :
    drawingReducer s (.erase strokeId) = s := by
  simp [drawingReducer, h]

theorem drawingReducer_clear_pos {s : DrawingState} (h : s.strokes ≠ []) :
    drawingReducer s .clear = ⟨[], pushHistory s.undoStack s.strokes, []⟩ := by
  have : ¬ s.strokes.length = 0 := by simpa [List.length_eq_zero] using h
  simp [drawingReducer, this]

theorem drawingReducer_clear_neg {s : DrawingState} (h : s.strokes = []) :
    drawingReducer s .clear = s := by
  simp [drawingReducer, h]

theorem drawingReducer_undo_some {s : DrawingState} {previous : List Stroke}
    (h : s.undoStack.getLast? = some previous) :
    drawingReducer s .undo
      = ⟨previous, s.undoStack.dropLast, pushHistory s.redoStack s.strokes⟩ := by
  simp only [drawingReducer, h]

theorem drawingReducer_redo_some {s : DrawingState} {next : List Stroke}
    (h : s.redoStack.getLast? = some next) :
    drawingReducer s .redo
      = ⟨next, pushHistory s.undoStack s.strokes, s.redoStack.dropLast⟩ := by
  simp only [drawingReducer, h]

/-- After any state whose undo stack carries a freshly pushed pre-operation
snapshot and whose redo stack is empty, undo restores that snapshot and a
following redo restores the current strokes. -/
theorem undo_redo_of_pushed (s1 : DrawingState) (base : HistoryStack) (pre : List Stroke)
    (hu : s1.undoStack = pushHistory base pre) (hr : s1.redoStack = []) :
    (drawingReducer s1 .undo).strokes = pre ∧
      (drawingReducer (drawingReducer s1 .undo) .redo).strokes = s1.strokes := by
  have hlast : s1.undoStack.getLast? = some pre := by
    rw [hu]; exact pushHistory_getLast base pre
  have hundo := drawingReducer_undo_some hlast
  have hredoStack : (drawingReducer s1 .undo).redoStack = [s1.strokes] := by
    rw [hundo, hr]; rfl
  have hlast2 : (drawingReducer s1 .undo).redoStack.getLast? = some s1.strokes := by
    rw [hredoStack]; rfl
  have hredo := drawingReducer_redo_some hlast2
  constructor
  · rw [hundo]
  · rw [hredo]

/-- C1: for every document state, after a single add, erase of a present
id, or clear of a nonempty document, undo restores the pre-operation
strokes exactly, and a redo immediately after that undo restores the
post-operation strokes, with no other mutating operation in between. -/
theorem undo_redo_roundtrip (s : DrawingState) (stroke : Stroke) (strokeId : String) :
    ((drawingReducer (drawingReducer s (.add stroke)) .undo).strokes = s.strokes ∧
      (drawingReducer (drawingReducer (drawingReducer s (.add stroke)) .undo) .redo).strokes
        = (drawingReducer s (.add stroke)).strokes) ∧
    (s.strokes.any (fun t => t.id == strokeId) = true →
      (drawingReducer (drawingReducer s (.erase strokeId)) .undo).strokes = s.strokes ∧
      (drawingReducer (drawingReducer (drawingReducer s (.erase strokeId)) .undo) .redo).strokes
        = (drawingReducer s (.erase strokeId)).strokes) ∧
    (s.strokes ≠ [] →
      (drawingReducer (drawingReducer s .clear) .undo).strokes = s.strokes ∧
      (drawingReducer (drawingReducer (drawingReducer s .clear) .undo) .redo).strokes
        = (drawingReducer s .clear).strokes) := by
  refine ⟨?_, fun h => ?_, fun h => ?_⟩
  · exact undo_redo_of_pushed (drawingReducer s (.add stroke)) s.undoStack s.strokes
      (by rw [drawingReducer_add]) (by rw [drawingReducer_add])
  · exact undo_redo_of_pushed (drawingReducer s (.erase strokeId)) s.undoStack s.strokes
      (by rw [drawingReducer_erase_pos h]) (by rw [drawingReducer_erase_pos h])
  · exact undo_redo_of_pushed (drawingReducer s .clear) s.undoStack s.strokes
      (by rw [drawingReducer_clear_pos h]) (by rw [drawingReducer_clear_pos h])

/-- C1 witness: the roundtrip evaluated on the concrete document with one
stroke, for an add, a present-id erase, and a clear. -/
theorem undo_redo_roundtrip_witness :
    ((drawingReducer (drawingReducer demoState1 (.add (demoStroke "t2"))) .undo).strokes
        = demoState1.strokes ∧
      (drawingReducer (drawingReducer (drawingReducer demoState1 (.add (demoStroke "t2"))) .undo)
          .redo).strokes = (drawingReducer demoState1 (.add (demoStroke "t2"))).strokes) ∧
    ((drawingReducer (drawingReducer demoState1 (.erase "t1")) .undo).strokes
        = demoState1.strokes ∧
      (drawingReducer (drawingReducer (drawingReducer demoState1 (.erase "t1")) .undo)
          .redo).strokes = (drawingReducer demoState1 (.erase "t1")).strokes) ∧
    ((drawingReducer (drawingReducer demoState1 .clear) .undo).strokes = demoState1.strokes ∧
      (drawingReducer (drawingReducer (drawingReducer demoState1 .clear) .undo) .redo).strokes
        = (drawingReducer demoState1 .clear).strokes) := by
  have h := undo_redo_roundtrip demoState1 (demoStroke "t2") "t1"
  exact ⟨h.1, h.2.1 (by decide), h.2.2 (by decide)⟩

/-- C2 counterexample: an erase whose id matches no stroke is an early
return of the unchanged state, so a nonempty redo stack survives it; the
redo stack is not cleared unconditionally. -/
theorem erase_noop_keeps_redoStack :
    (drawingReducer demoState1 (.erase "missing")).redoStack ≠ [] := by
  decide

/-- C2 amended: add always clears the redo stack; erase and clear clear it
whenever they change the document (id present, respectively nonempty
strokes); the no-op erase and the no-op clear return the state unchanged,
redo stack included. -/
theorem mutating_ops_clear_redoStack (s : DrawingState) (stroke : Stroke) (strokeId : String) :
    (drawingReducer s (.add stroke)).redoStack = [] ∧
    (s.strokes.any (fun t => t.id == strokeId) = true →
      (drawingReducer s (.erase strokeId)).redoStack = []) ∧
    (s.strokes.any (fun t => t.id == strokeId) = false →
      drawingReducer s (.erase strokeId) = s) ∧
    (s.strokes ≠ [] → (drawingReducer s .clear).redoStack = []) ∧
    (s.strokes = [] → drawingReducer s .clear = s) := by
  refine ⟨by rw [drawingReducer_add], fun h => ?_, fun h => ?_, fun h => ?_, fun h => ?_⟩
  · rw [drawingReducer_erase_pos h]
  · exact drawingReducer_erase_neg h
  · rw [drawingReducer_clear_pos h]
  · exact drawingReducer_clear_neg h

/-- C2 amended witness: each branch evaluated on concrete states. -/
theorem mutating_ops_clear_redoStack_witness :
    (drawingReducer demoState1 (.add (demoStroke "t2"))).redoStack = [] ∧
    (drawingReducer demoState1 (.erase "t1")).redoStack = [] ∧
    drawingReducer demoState1 (.erase "missing") = demoState1 ∧
    (drawingReducer demoState1 .clear).redoStack = [] ∧
    drawingReducer initialState .clear = initialState := by
  have h1 := mutating_ops_clear_redoStack demoState1 (demoStroke "t2") "t1"
  have h2 := mutating_ops_clear_redoStack demoState1 (demoStroke "t2") "missing"
  have h3 := mutating_ops_clear_redoStack initialState (demoStroke "t2") "t1"
  exact ⟨h1.1, h1.2.1 (by decide), h2.2.2.1 (by decide), h1.2.2.2.1 (by decide),
    h3.2.2.2.2 (by decide)⟩

/- C3: the reachability invariant for the history caps. -/

def HistoryBounded (s : DrawingState) : Prop :=
  s.undoStack.length ≤ MAX_HISTORY ∧ s.redoStack.length ≤ MAX_HISTORY

theorem historyBounded_reducer (s : DrawingState) (a : DrawingAction)
    (h : HistoryBounded s) : HistoryBounded (drawingReducer s a) := by
  obtain ⟨hu, hr⟩ := h
  cases a with
  | set strokes => exact ⟨by simp [drawingReducer], by simp [drawingReducer]⟩
  | add stroke => exact ⟨pushHistory_length_le _ hu, by simp [drawingReducer]⟩
  | erase strokeId =>
      by_cases hc : s.strokes.any (fun stroke => stroke.id == strokeId) = true
      · rw [drawingReducer_erase_pos hc]
        exact ⟨pushHistory_length_le _ hu, by simp⟩
      · rw [drawingReducer_erase_neg (by simpa using hc)]
        exact ⟨hu, hr⟩
  | clear =>
      by_cases hc : s.strokes = []
      · rw [drawingReducer_clear_neg hc]; exact ⟨hu, hr⟩
      · rw [drawingReducer_clear_pos hc]
        exact ⟨pushHistory_length_le _ hu, by simp⟩
  | undo =>
      cases hlast : s.undoStack.getLast? with
      | none => simpa [drawingReducer, hlast] using ⟨hu, hr⟩
      | some previous =>
          rw [drawingReducer_undo_some hlast]
          refine ⟨?_, pushHistory_length_le _ hr⟩
          have := List.length_dropLast s.undoStack
          simp only [HistoryBounded] at *
          omega
  | redo =>
      cases hlast : s.redoStack.getLast? with
      | none => simpa [drawingReducer, hlast] using ⟨hu, hr⟩
      | some next =>
          rw [drawingReducer_redo_some hlast]
          refine ⟨pushHistory_length_le _ hu, ?_⟩
          have := List.length_dropLast s.redoStack
          simp only [HistoryBounded] at *
          omega

theorem historyBounded_applyActions (actions : List DrawingAction) (s : DrawingState)
    (h : HistoryBounded s) : HistoryBounded (applyActions actions s) := by
  induction actions generalizing s with
  | nil => exact h
  | cons a rest ih => exact ih (drawingReducer s a) (historyBounded_reducer s a h)

/-- C3: every state reachable from the empty document keeps both history
stacks at or below 20 entries; a push onto a full stack evicts exactly the
oldest entry and keeps the newest 20, and the just-pushed snapshot is
always the last (newest) entry of the resulting stack. -/
theorem history_stacks_capped (actions : List DrawingAction) (stack : HistoryStack)
    (snapshot : List Stroke) :
    (applyActions actions initialState).undoStack.length ≤ MAX_HISTORY ∧
    (applyActions actions initialState).redoStack.length ≤ MAX_HISTORY ∧
    (stack.length = MAX_HISTORY → pushHistory stack snapshot = stack.drop 1 ++ [snapshot]) ∧
    (pushHistory stack snapshot).getLast? = some snapshot := by
  have hb := historyBounded_applyActions actions initialState
    (by constructor <;> simp [initialState, MAX_HISTORY])
  exact ⟨hb.1, hb.2, fun h => pushHistory_full snapshot h, pushHistory_getLast stack snapshot⟩

/-- C3 witness: evaluated on an empty action sequence and a full stack of
20 snapshots. -/
theorem history_stacks_capped_witness :
    (applyActions [] initialState).undoStack.length ≤ MAX_HISTORY ∧
    (applyActions [] initialState).redoStack.length ≤ MAX_HISTORY ∧
    pushHistory (List.replicate 20 []) [demoStroke "w"]
      = (List.replicate 20 []).drop 1 ++ [[demoStroke "w"]] ∧
    (pushHistory (List.replicate 20 []) [demoStroke "w"]).getLast? = some [demoStroke "w"] := by
  have h := history_stacks_capped [] (List.replicate 20 []) [demoStroke "w"]
  exact ⟨h.1, h.2.1, h.2.2.1 (by decide), h.2.2.2⟩

/-- C4: erasing an id that matches no stroke returns the very same state:
the strokes value is unchanged and nothing is pushed onto either history
stack. -/
theorem erase_unmatched_id_noop (s : DrawingState) (strokeId : String)
    (h : ∀ t ∈ s.strokes, t.id ≠ strokeId) :
    drawingReducer s (.erase strokeId) = s := by
  apply drawingReducer_erase_neg
  simp only [List.any_eq_false]
  intro t ht
  simpa using h t ht

/-- C4 witness: the no-op erase evaluated on the concrete document. -/
theorem erase_unmatched_id_noop_witness :
    drawingReducer demoState1 (.erase "nope") = demoState1 :=
  erase_unmatched_id_noop demoState1 "nope" (by decide)

theorem pushHistory_length_of_lt {stack : HistoryStack} (snapshot : List Stroke)
    (h : stack.length < MAX_HISTORY) :
    (pushHistory stack snapshot).length = stack.length + 1 := by
  unfold pushHistory capHistory
  have h2 : (stack ++ [snapshot]).length ≤ MAX_HISTORY := by
    simp only [List.length_append, List.length_singleton]
    omega
  rw [if_pos h2, List.length_append, List.length_singleton]

def demoDupState : DrawingState :=
  ⟨[demoStroke "dup", demoStroke "t2", demoStroke "dup"], [], []⟩

/-- C10: when at least one stroke bears the given id, erase removes every
stroke with that id in the single operation (filter semantics) while
pushing exactly one pre-operation snapshot onto the undo stack. -/
theorem erase_removes_all_with_id (s : DrawingState) (strokeId : String)
    (h : s.strokes.any (fun t => t.id == strokeId) = true) :
    (drawingReducer s (.erase strokeId)).strokes
        = s.strokes.filter (fun t => t.id != strokeId) ∧
    (∀ t ∈ (drawingReducer s (.erase strokeId)).strokes, t.id ≠ strokeId) ∧
    (drawingReducer s (.erase strokeId)).undoStack = pushHistory s.undoStack s.strokes ∧
    (s.undoStack.length < MAX_HISTORY →
      (drawingReducer s (.erase strokeId)).undoStack.length = s.undoStack.length + 1) := by
  rw [drawingReducer_erase_pos h]
  refine ⟨rfl, ?_, rfl, ?_⟩
  · intro t ht
    have := (List.mem_filter.mp ht).2
    simpa using this
  · intro hlen
    exact pushHistory_length_of_lt s.strokes hlen

/-- C10 witness: a document holding two strokes with the duplicate id dup
loses both in one erase, and gains one undo snapshot. -/
theorem erase_removes_all_with_id_witness :
    (drawingReducer demoDupState (.erase "dup")).strokes
        = demoDupState.strokes.filter (fun t => t.id != "dup") ∧
    (drawingReducer demoDupState (.erase "dup")).strokes = [demoStroke "t2"] ∧
    (∀ t ∈ (drawingReducer demoDupState (.erase "dup")).strokes, t.id ≠ "dup") ∧
    (drawingReducer demoDupState (.erase "dup")).undoStack
        = pushHistory demoDupState.undoStack demoDupState.strokes ∧
    (drawingReducer demoDupState (.erase "dup")).undoStack.length
        = demoDupState.undoStack.length + 1 := by
  have h := erase_removes_all_with_id demoDupState "dup" (by decide)
  exact ⟨h.1, by rw [h.1]; decide, h.2.1, h.2.2.1, h.2.2.2 (by decide)⟩

/- C5: the eraser tap dispatch. -/

/-- Minimum of a list of rationals, none for the empty list. -/
def listMin? : List ℚ → Option ℚ
  | [] => none
  | a :: l =>
      match listMin? l with
      | none => some a
      | some m => some (min a m)

/-- The candidate squared distances of a tap point from a stroke: the
squared distance to each consecutive segment, or to the single point when
the stroke has exactly one point. -/
def strokeDistCandidates (point : Point) (stroke : Stroke) : List ℚ :=
  match stroke.points with
  | [] => []
  | [p] => [distanceSq point p]
  | points => (points.zip points.tail).map (fun ab => distanceToSegmentSq point ab.1 ab.2)

/-- The minimum squared distance of the tap point from the stroke, as the
claim words it. -/
def strokeMinDistSq (point : Point) (stroke : Stroke) : Option ℚ :=
  listMin? (strokeDistCandidates point stroke)

theorem listMin?_cons_ne_none (a : ℚ) (l : List ℚ) : listMin? (a :: l) ≠ none := by
  simp only [listMin?]
  cases listMin? l <;> simp

theorem listMin?_le_iff (c : ℚ) :
    ∀ (l : List ℚ) (m : ℚ), listMin? l = some m → (m ≤ c ↔ ∃ x ∈ l, x ≤ c) := by
  intro l
  induction l with
  | nil => intro m h; simp [listMin?] at h
  | cons a l ih =>
      intro m h
      simp only [listMin?] at h
      cases hl : listMin? l with
      | none =>
          rw [hl] at h
          cases h
          cases l with
          | nil => simp
          | cons b t => exact absurd hl (listMin?_cons_ne_none b t)
      | some m2 =>
          rw [hl] at h
          cases h
          constructor
          · intro hle
            rcases min_le_iff.mp hle with ha | hm
            · exact ⟨a, List.mem_cons_self a l, ha⟩
            · obtain ⟨x, hx, hxc⟩ := (ih m2 hl).mp hm
              exact ⟨x, List.mem_cons_of_mem a hx, hxc⟩
          · rintro ⟨x, hx, hxc⟩
            rcases List.mem_cons.mp hx with rfl | hx
            · exact le_trans (min_le_left _ _) hxc
            · exact le_trans (min_le_right _ _) ((ih m2 hl).mpr ⟨x, hx, hxc⟩)

/-- The boolean hit test of the source agrees with the minimum-distance
formulation of the claim. -/
theorem isPointNearStroke_iff_minDist (point : Point) (stroke : Stroke) (m : ℚ)
    (h : strokeMinDistSq point stroke = some m) :
    (isPointNearStroke point stroke = true ↔
      m ≤ (stroke.width / 2 + ERASER_HIT_PADDING) * (stroke.width / 2 + ERASER_HIT_PADDING)) := by
  obtain ⟨sid, pts, sc, sw, st⟩ := stroke
  cases pts with
  | nil => simp [strokeMinDistSq, strokeDistCandidates, listMin?] at h
  | cons p1 rest =>
      cases rest with
      | nil =>
          simp only [strokeMinDistSq, strokeDistCandidates, listMin?] at h
          cases h
          simp [isPointNearStroke]
      | cons p2 rest2 =>
          simp only [strokeMinDistSq, strokeDistCandidates] at h
          have hiff := listMin?_le_iff
            ((sw / 2 + ERASER_HIT_PADDING) * (sw / 2 + ERASER_HIT_PADDING)) _ m h
          simp only [isPointNearStroke]
          rw [hiff]
          simp only [List.any_eq_true, decide_eq_true_eq, List.mem_map, Prod.exists,
            List.zip_cons_cons, List.tail_cons, List.mem_cons, Prod.mk.injEq]
          constructor
          · rintro ⟨a, b, hmem, hle⟩
            exact ⟨distanceToSegmentSq point a b, ⟨a, b, hmem, rfl⟩, hle⟩
          · rintro ⟨x, ⟨a, b, hmem, rfl⟩, hle⟩
            exact ⟨a, b, hmem, hle⟩

theorem find?_eq_some_split {α : Type} (p : α → Bool) :
    ∀ (l : List α) (a : α), l.find? p = some a →
      ∃ l1 l2, l = l1 ++ a :: l2 ∧ ∀ x ∈ l1, p x = false := by
  intro l
  induction l with
  | nil => intro a h; simp at h
  | cons b t ih =>
      intro a h
      by_cases hb : p b = true
      · rw [List.find?_cons_of_pos _ hb] at h
        cases h
        exact ⟨[], t, rfl, by simp⟩
      · have hb2 : p b = false := by simpa using hb
        rw [List.find?_cons_of_neg _ (by simp [hb2])] at h
        obtain ⟨l1, l2, rfl, hall⟩ := ih a h
        refine ⟨b :: l1, l2, rfl, ?_⟩
        intro x hx
        rcases List.mem_cons.mp hx with rfl | hx
        · exact hb2
        · exact hall x hx

/-- A successful find? over the reversed strokes splits the original list:
everything after the found stroke fails the predicate. -/
theorem reverse_find?_split (p : Stroke → Bool) (l : List Stroke) (a : Stroke)
    (h : l.reverse.find? p = some a) :
    ∃ pre post, l = pre ++ a :: post ∧ ∀ x ∈ post, p x = false := by
  obtain ⟨l1, l2, hsplit, hall⟩ := find?_eq_some_split p l.reverse a h
  refine ⟨l2.reverse, l1.reverse, ?_, ?_⟩
  · have : l.reverse.reverse = (l1 ++ a :: l2).reverse := by rw [hsplit]
    simpa [List.reverse_append] using this
  · intro x hx
    exact hall x (by simpa using hx)

/-- Filtering out one id from a strokes list with pairwise distinct ids
removes exactly the one occurrence. -/
theorem filter_ne_id_of_nodup (pre post : List Stroke) (t : Stroke)
    (hnodup : ((pre ++ t :: post).map Stroke.id).Nodup) :
    (pre ++ t :: post).filter (fun u => u.id != t.id) = pre ++ post := by
  rw [List.map_append, List.map_cons] at hnodup
  obtain ⟨hpre, hcons, hdisj⟩ := List.nodup_append.mp hnodup
  have hpost : ∀ u ∈ post, u.id ≠ t.id := by
    intro u hu heq
    have : t.id ∈ post.map Stroke.id := heq ▸ List.mem_map_of_mem Stroke.id hu
    exact (List.nodup_cons.mp hcons).1 this
  have hpre2 : ∀ u ∈ pre, u.id ≠ t.id := by
    intro u hu heq
    have hmem : u.id ∈ pre.map Stroke.id := List.mem_map_of_mem Stroke.id hu
    have : u.id ∉ t.id :: post.map Stroke.id := hdisj hmem
    exact this (heq ▸ List.mem_cons_self _ _)
  rw [List.filter_append]
  have h1 : pre.filter (fun u => u.id != t.id) = pre :=
    List.filter_eq_self.mpr (fun u hu => by simpa using hpre2 u hu)
  have h2 : (t :: post).filter (fun u => u.id != t.id) = post := by
    rw [List.filter_cons_of_neg (by simp)]
    exact List.filter_eq_self.mpr (fun u hu => by simpa using hpost u hu)
  rw [h1, h2]

/-- C5: a tap-ending eraser gesture (moved flag clear) scans the strokes
from last to first and removes, through erase, the first stroke whose
minimum squared distance from the tap point is at most the squared
tolerance width/2 + ERASER_HIT_PADDING; the scan stops at the first match,
so with unique ids exactly one stroke is removed even when several qualify,
and a gesture with the moved flag set removes nothing. -/
theorem eraser_tap_erases_first_hit (start point : Point) (s : DrawingState) :
    handleEraserEnd (some start) true point s = s ∧
    handleEraserEnd none false point s = s ∧
    (s.strokes.reverse.find? (fun u => isPointNearStroke point u) = none →
      handleEraserEnd (some start) false point s = s) ∧
    (∀ t, s.strokes.reverse.find? (fun u => isPointNearStroke point u) = some t →
      handleEraserEnd (some start) false point s = drawingReducer s (.erase t.id) ∧
      isPointNearStroke point t = true ∧
      ∃ pre post, s.strokes = pre ++ t :: post ∧
        ∀ u ∈ post, isPointNearStroke point u = false) ∧
    (∀ t m, strokeMinDistSq point t = some m →
      (isPointNearStroke point t = true ↔
        m ≤ (t.width / 2 + ERASER_HIT_PADDING) * (t.width / 2 + ERASER_HIT_PADDING))) ∧
    ((s.strokes.map Stroke.id).Nodup →
      ∀ t, s.strokes.reverse.find? (fun u => isPointNearStroke point u) = some t →
        (handleEraserEnd (some start) false point s).strokes.length + 1
          = s.strokes.length) := by
  refine ⟨rfl, rfl, ?_, ?_, ?_, ?_⟩
  · intro h
    simp only [handleEraserEnd, h, Bool.false_eq_true, if_false]
  · intro t ht
    refine ⟨?_, List.find?_some ht, reverse_find?_split _ _ _ ht⟩
    simp only [handleEraserEnd, ht, Bool.false_eq_true, if_false]
  · exact fun t m hm => isPointNearStroke_iff_minDist point t m hm
  · intro hnodup t ht
    obtain ⟨pre, post, hsplit, _⟩ := reverse_find?_split _ _ _ ht
    have hmem : t ∈ s.strokes := List.mem_reverse.mp (List.mem_of_find?_eq_some ht)
    have hany : s.strokes.any (fun u => u.id == t.id) = true :=
      List.any_eq_true.mpr ⟨t, hmem, by simp⟩
    have heq : handleEraserEnd (some start) false point s = drawingReducer s (.erase t.id) := by
      simp only [handleEraserEnd, ht, Bool.false_eq_true, if_false]
    rw [heq, drawingReducer_erase_pos hany]
    show (s.strokes.filter (fun u => u.id != t.id)).length + 1 = s.strokes.length
    rw [hsplit] at hnodup ⊢
    rw [filter_ne_id_of_nodup pre post t hnodup]
    simp only [List.length_append, List.length_cons]
    omega

def demoFarStroke : Stroke := ⟨"far", [⟨500, 500⟩], "#111111", 3, 0⟩

def demoNearStroke : Stroke := ⟨"near", [⟨10, 10⟩], "#111111", 3, 0⟩

def demoEraseState : DrawingState := ⟨[demoNearStroke, demoFarStroke], [], []⟩

theorem isPointNearStroke_far_eval : isPointNearStroke ⟨10, 10⟩ demoFarStroke = false := by
  simp only [isPointNearStroke, demoFarStroke, distanceSq, ERASER_HIT_PADDING,
    decide_eq_false_iff_not, not_le]
  norm_num

theorem isPointNearStroke_near_eval : isPointNearStroke ⟨10, 10⟩ demoNearStroke = true := by
  simp only [isPointNearStroke, demoNearStroke, distanceSq, ERASER_HIT_PADDING,
    decide_eq_true_eq]
  norm_num

theorem demoErase_find_eval :
    demoEraseState.strokes.reverse.find? (fun u => isPointNearStroke ⟨10, 10⟩ u)
      = some demoNearStroke := by
  show List.find? _ [demoFarStroke, demoNearStroke] = _
  rw [List.find?_cons_of_neg _ (by rw [isPointNearStroke_far_eval]; simp),
    List.find?_cons_of_pos _ isPointNearStroke_near_eval]

theorem demoNear_minDist_eval : strokeMinDistSq ⟨10, 10⟩ demoNearStroke = some 0 := by
  simp only [strokeMinDistSq, strokeDistCandidates, demoNearStroke, listMin?, distanceSq]
  norm_num

/-- C5 witness: a tap at the point 10,10 over a near stroke and a far
stroke erases exactly the near stroke; a moved gesture erases nothing. -/
theorem eraser_tap_erases_first_hit_witness :
    handleEraserEnd (some ⟨10, 10⟩) true ⟨10, 10⟩ demoEraseState = demoEraseState ∧
    (handleEraserEnd (some ⟨10, 10⟩) false ⟨10, 10⟩ demoEraseState
        = drawingReducer demoEraseState (.erase "near") ∧
      isPointNearStroke ⟨10, 10⟩ demoNearStroke = true) ∧
    (isPointNearStroke ⟨10, 10⟩ demoNearStroke = true ↔
      (0 : ℚ) ≤ (demoNearStroke.width / 2 + ERASER_HIT_PADDING)
        * (demoNearStroke.width / 2 + ERASER_HIT_PADDING)) ∧
    (handleEraserEnd (some ⟨10, 10⟩) false ⟨10, 10⟩ demoEraseState).strokes.length + 1
        = demoEraseState.strokes.length ∧
    handleEraserEnd (some ⟨10, 10⟩) false ⟨10, 10⟩ initialState = initialState := by
  have h := eraser_tap_erases_first_hit ⟨10, 10⟩ ⟨10, 10⟩ demoEraseState
  have h0 := eraser_tap_erases_first_hit ⟨10, 10⟩ ⟨10, 10⟩ initialState
  have hfind := demoErase_find_eval
  have h4 := h.2.2.2.1 demoNearStroke hfind
  refine ⟨h.1, ⟨?_, h4.2.1⟩, ?_, ?_, h0.2.2.1 (by decide)⟩
  · rw [h4.1]
    have : demoNearStroke.id = "near" := rfl
    rw [this]
  · exact h.2.2.2.2.1 demoNearStroke 0 demoNear_minDist_eval
  · exact h.2.2.2.2.2 (by decide) demoNearStroke hfind

/- C6: pen capture spacing. -/

/-- Adjacent recorded points are at least MIN_POINT_DISTANCE apart, in
squared form. -/
def WellSpaced (points : List Point) : Prop :=
  List.Chain' (fun a b => MIN_POINT_DISTANCE_SQ ≤ distanceSq a b) points

theorem handlePenMove_ne_nil (buf : List Point) (p : Point) (h : buf ≠ []) :
    handlePenMove buf p ≠ [] := by
  cases hl : buf.getLast? with
  | none => simp [handlePenMove, hl]
  | some lastPoint =>
      by_cases hd : MIN_POINT_DISTANCE_SQ ≤ distanceSq lastPoint p
      · simp [handlePenMove, hl, hd]
      · simpa [handlePenMove, hl, hd] using h

theorem handlePenMove_head (buf : List Point) (p : Point) (h : buf ≠ []) :
    (handlePenMove buf p).head? = buf.head? := by
  cases hl : buf.getLast? with
  | none => exact absurd (List.getLast?_eq_none_iff.mp hl) h
  | some lastPoint =>
      by_cases hd : MIN_POINT_DISTANCE_SQ ≤ distanceSq lastPoint p
      · simp only [handlePenMove, hl, if_pos hd]
        cases buf with
        | nil => exact absurd rfl h
        | cons q t => rfl
      · simp only [handlePenMove, hl, if_neg hd]

theorem handlePenMove_wellSpaced (buf : List Point) (p : Point) (h : WellSpaced buf) :
    WellSpaced (handlePenMove buf p) := by
  cases hl : buf.getLast? with
  | none =>
      have hnil := List.getLast?_eq_none_iff.mp hl
      simp only [handlePenMove, hl, hnil, List.nil_append]
      exact List.chain'_singleton p
  | some lastPoint =>
      by_cases hd : MIN_POINT_DISTANCE_SQ ≤ distanceSq lastPoint p
      · simp only [handlePenMove, hl, if_pos hd]
        refine List.chain'_append.mpr ⟨h, List.chain'_singleton p, ?_⟩
        intro x hx y hy
        rw [hl] at hx
        cases hx
        cases hy
        exact hd
      · simp only [handlePenMove, hl, if_neg hd]
        exact h

theorem penCapture_fold_invariant (moves : List Point) :
    ∀ (buf : List Point), buf ≠ [] → WellSpaced buf →
      (moves.foldl handlePenMove buf) ≠ [] ∧
      (moves.foldl handlePenMove buf).head? = buf.head? ∧
      WellSpaced (moves.foldl handlePenMove buf) := by
  induction moves with
  | nil => exact fun buf hne hws => ⟨hne, rfl, hws⟩
  | cons p rest ih =>
      intro buf hne hws
      have hne2 := handlePenMove_ne_nil buf p hne
      have hws2 := handlePenMove_wellSpaced buf p hws
      obtain ⟨a, b, c⟩ := ih (handlePenMove buf p) hne2 hws2
      exact ⟨a, b.trans (handlePenMove_head buf p hne), c⟩

/-- C6: the first point of a pen gesture is recorded unconditionally, a
moved-to point is appended only when its squared distance from the last
recorded point reaches MIN_POINT_DISTANCE_SQ, which equals 4, and as a
consequence no two consecutive recorded points of the captured buffer are
closer than that. -/
theorem pen_capture_min_spacing (start : Point) (moves : List Point) :
    MIN_POINT_DISTANCE_SQ = 4 ∧
    (penCapture start moves).head? = some start ∧
    WellSpaced (penCapture start moves) := by
  have h := penCapture_fold_invariant moves [start] (by simp)
    (List.chain'_singleton start)
  exact ⟨by norm_num [MIN_POINT_DISTANCE_SQ, MIN_POINT_DISTANCE], h.2.1, h.2.2⟩

/- C7: export validation. -/

/-- C7 counterexample: a region export with a negative logical canvas
width succeeds; the region mode never reads the logical size, so the
claimed rejection of a non-positive logical size does not happen there. -/
theorem region_export_ignores_logical_size :
    ((-1 : ℚ) ≤ 0) ∧
    renderRegionToPngBase64 ⟨1, []⟩ ⟨-1, 100⟩ ⟨0, 0, 10, 10⟩ = .ok (100, 100) := by
  refine ⟨by norm_num, ?_⟩
  have hpre : regionPreSize ⟨0, 0, 10, 10⟩ = (40, 40) := by
    rw [regionPreSize]
    norm_num [MAX_REGION_OUTPUT_DIM, round_eq]
  rw [renderRegionToPngBase64, if_neg (by norm_num), computeRegionOutputSize, hpre]
  simp only [Except.ok.injEq]
  decide

/-- C7 amended: full-page export fails with the descriptive error exactly
when the logical size is non-positive; region export fails with the
descriptive error exactly when a selection dimension is non-positive, and
performs no validation of the logical size (it succeeds for any logical
size whenever the selection is positive); both rejections are immediate,
before any surface work. -/
theorem export_validation (dd : DrawingData) (logicalSize outputSize : ExportSize)
    (sel : SelectionRect) :
    ((logicalSize.width ≤ 0 ∨ logicalSize.height ≤ 0) →
      renderDrawingToPngBase64 dd logicalSize outputSize
        = .error "Invalid logical canvas size for export.") ∧
    (0 < logicalSize.width → 0 < logicalSize.height →
      (renderDrawingToPngBase64 dd logicalSize outputSize).isOk = true) ∧
    ((sel.width ≤ 0 ∨ sel.height ≤ 0) →
      renderRegionToPngBase64 dd logicalSize sel = .error "Invalid selection rectangle.") ∧
    (0 < sel.width → 0 < sel.height →
      renderRegionToPngBase64 dd logicalSize sel = .ok (computeRegionOutputSize sel)) := by
  refine ⟨fun h => ?_, fun h1 h2 => ?_, fun h => ?_, fun h1 h2 => ?_⟩
  · rw [renderDrawingToPngBase64, if_pos h]
  · rw [renderDrawingToPngBase64, if_neg (by push_neg; exact ⟨h1, h2⟩)]
    rfl
  · rw [renderRegionToPngBase64, if_pos h]
  · rw [renderRegionToPngBase64, if_neg (by push_neg; exact ⟨h1, h2⟩)]

/-- C7 amended witness: each validation branch evaluated concretely,
including a region export with a negative logical width that succeeds. -/
theorem export_validation_witness :
    renderDrawingToPngBase64 ⟨1, []⟩ ⟨0, 100⟩ ⟨2048, 2732⟩
      = .error "Invalid logical canvas size for export." ∧
    (renderDrawingToPngBase64 ⟨1, []⟩ ⟨100, 100⟩ ⟨2048, 2732⟩).isOk = true ∧
    renderRegionToPngBase64 ⟨1, []⟩ ⟨100, 100⟩ ⟨0, 0, 0, 5⟩
      = .error "Invalid selection rectangle." ∧
    renderRegionToPngBase64 ⟨1, []⟩ ⟨-1, 100⟩ ⟨0, 0, 10, 10⟩
      = .ok (computeRegionOutputSize ⟨0, 0, 10, 10⟩) := by
  have h1 := export_validation ⟨1, []⟩ ⟨0, 100⟩ ⟨2048, 2732⟩ ⟨0, 0, 0, 5⟩
  have h2 := export_validation ⟨1, []⟩ ⟨100, 100⟩ ⟨2048, 2732⟩ ⟨0, 0, 0, 5⟩
  have h3 := export_validation ⟨1, []⟩ ⟨-1, 100⟩ ⟨2048, 2732⟩ ⟨0, 0, 10, 10⟩
  exact ⟨h1.1 (Or.inl (by norm_num)), h2.2.1 (by norm_num) (by norm_num),
    h2.2.2.1 (Or.inl (by norm_num)), h3.2.2.2 (by norm_num) (by norm_num)⟩

/- C8: region output sizing. -/

/-- One output dimension is, up to the half-unit rounding error, the other
scaled by the selection aspect ratio. -/
def ratioWithinRounding (selection : SelectionRect) (ow oh : ℤ) : Prop :=
  |(oh : ℚ) - (ow : ℚ) * selection.height / selection.width| ≤ 1 / 2 ∨
  |(ow : ℚ) - (oh : ℚ) * selection.width / selection.height| ≤ 1 / 2

theorem round_mono_rat {x y : ℚ} (h : x ≤ y) : round x ≤ round y := by
  rw [round_eq, round_eq]
  exact Int.floor_le_floor (by linarith)

theorem round_nonneg_rat {x : ℚ} (h : 0 ≤ x) : 0 ≤ round x := by
  rw [round_eq]
  exact Int.floor_nonneg.mpr (by linarith)

theorem regionPreSize_landscape (selection : SelectionRect)
    (hb : 1 ≤ selection.width / selection.height) :
    regionPreSize selection
      = (min MAX_REGION_OUTPUT_DIM (round (selection.width * 4)),
         round ((min MAX_REGION_OUTPUT_DIM (round (selection.width * 4)) : ℤ)
           / (selection.width / selection.height))) := by
  rw [regionPreSize, if_pos hb]

theorem regionPreSize_portrait (selection : SelectionRect)
    (hb : ¬ 1 ≤ selection.width / selection.height) :
    regionPreSize selection
      = (round ((min MAX_REGION_OUTPUT_DIM (round (selection.height * 4)) : ℤ)
           * (selection.width / selection.height)),
         min MAX_REGION_OUTPUT_DIM (round (selection.height * 4))) := by
  rw [regionPreSize, if_neg hb]

theorem regionPreSize_bounds (selection : SelectionRect)
    (hw : 0 < selection.width) (hh : 0 < selection.height) :
    0 ≤ (regionPreSize selection).1 ∧ (regionPreSize selection).1 ≤ MAX_REGION_OUTPUT_DIM ∧
    0 ≤ (regionPreSize selection).2 ∧ (regionPreSize selection).2 ≤ MAX_REGION_OUTPUT_DIM := by
  have haspect : 0 < selection.width / selection.height := div_pos hw hh
  by_cases hb : 1 ≤ selection.width / selection.height
  · rw [regionPreSize_landscape selection hb]
    have hr : 0 ≤ round (selection.width * 4) := round_nonneg_rat (by positivity)
    have hp1 : 0 ≤ min MAX_REGION_OUTPUT_DIM (round (selection.width * 4)) :=
      le_min (by norm_num [MAX_REGION_OUTPUT_DIM]) hr
    have hdiv : ((min MAX_REGION_OUTPUT_DIM (round (selection.width * 4)) : ℤ) : ℚ)
        / (selection.width / selection.height)
        ≤ ((min MAX_REGION_OUTPUT_DIM (round (selection.width * 4)) : ℤ) : ℚ) :=
      div_le_self (by exact_mod_cast hp1) hb
    refine ⟨hp1, min_le_left _ _, ?_, ?_⟩
    · exact round_nonneg_rat (div_nonneg (by exact_mod_cast hp1) (le_of_lt haspect))
    · calc round (((min MAX_REGION_OUTPUT_DIM (round (selection.width * 4)) : ℤ) : ℚ)
            / (selection.width / selection.height))
          ≤ round ((min MAX_REGION_OUTPUT_DIM (round (selection.width * 4)) : ℤ) : ℚ) :=
            round_mono_rat hdiv
        _ = min MAX_REGION_OUTPUT_DIM (round (selection.width * 4)) := round_intCast _
        _ ≤ MAX_REGION_OUTPUT_DIM := min_le_left _ _
  · rw [regionPreSize_portrait selection hb]
    have hr : 0 ≤ round (selection.height * 4) := round_nonneg_rat (by positivity)
    have hp2 : 0 ≤ min MAX_REGION_OUTPUT_DIM (round (selection.height * 4)) :=
      le_min (by norm_num [MAX_REGION_OUTPUT_DIM]) hr
    have hmul : ((min MAX_REGION_OUTPUT_DIM (round (selection.height * 4)) : ℤ) : ℚ)
        * (selection.width / selection.height)
        ≤ ((min MAX_REGION_OUTPUT_DIM (round (selection.height * 4)) : ℤ) : ℚ) :=
      mul_le_of_le_one_right (by exact_mod_cast hp2) (le_of_lt (not_le.mp hb))
    refine ⟨?_, ?_, hp2, min_le_left _ _⟩
    · exact round_nonneg_rat (mul_nonneg (by exact_mod_cast hp2) (le_of_lt haspect))
    · calc round (((min MAX_REGION_OUTPUT_DIM (round (selection.height * 4)) : ℤ) : ℚ)
            * (selection.width / selection.height))
          ≤ round ((min MAX_REGION_OUTPUT_DIM (round (selection.height * 4)) : ℤ) : ℚ) :=
            round_mono_rat hmul
        _ = min MAX_REGION_OUTPUT_DIM (round (selection.height * 4)) := round_intCast _
        _ ≤ MAX_REGION_OUTPUT_DIM := min_le_left _ _

theorem regionPreSize_ratio (selection : SelectionRect) :
    ratioWithinRounding selection (regionPreSize selection).1 (regionPreSize selection).2 := by
  by_cases hb : 1 ≤ selection.width / selection.height
  · left
    rw [regionPreSize_landscape selection hb]
    have hx : ((min MAX_REGION_OUTPUT_DIM (round (selection.width * 4)) : ℤ) : ℚ)
        / (selection.width / selection.height)
        = ((min MAX_REGION_OUTPUT_DIM (round (selection.width * 4)) : ℤ) : ℚ)
          * selection.height / selection.width := by
      rw [div_div_eq_mul_div]
    rw [← hx]
    have := abs_sub_round (((min MAX_REGION_OUTPUT_DIM (round (selection.width * 4)) : ℤ) : ℚ)
      / (selection.width / selection.height))
    rw [abs_sub_comm] at this
    exact this
  · right
    rw [regionPreSize_portrait selection hb]
    have hx : ((min MAX_REGION_OUTPUT_DIM (round (selection.height * 4)) : ℤ) : ℚ)
        * (selection.width / selection.height)
        = ((min MAX_REGION_OUTPUT_DIM (round (selection.height * 4)) : ℤ) : ℚ)
          * selection.width / selection.height := by
      rw [mul_div_assoc]
    rw [← hx]
    have := abs_sub_round (((min MAX_REGION_OUTPUT_DIM (round (selection.height * 4)) : ℤ) : ℚ)
      * (selection.width / selection.height))
    rw [abs_sub_comm] at this
    exact this

/-- C8 counterexample: for the selection 1000 wide and 1 tall, the floor
clamp raises the output height to 100 while the width stays 2048, so the
output aspect ratio 2048 to 100 is nowhere near the selection aspect
ratio 1000 to 1: the claimed aspect preservation fails once the floor
engages. -/
theorem region_aspect_breaks_at_floor :
    computeRegionOutputSize ⟨0, 0, 1000, 1⟩ = (2048, 100) ∧
    ¬ ratioWithinRounding ⟨0, 0, 1000, 1⟩ 2048 100 := by
  constructor
  · have hpre : regionPreSize ⟨0, 0, 1000, 1⟩ = (2048, 2) := by
      rw [regionPreSize_landscape _ (by norm_num)]
      norm_num [MAX_REGION_OUTPUT_DIM, round_eq]
    rw [computeRegionOutputSize, hpre]
    decide
  · simp only [ratioWithinRounding, not_or, not_le]
    constructor
    · rw [show ((100 : ℤ) : ℚ) - ((2048 : ℤ) : ℚ)
          * (SelectionRect.mk 0 0 1000 1).height / (SelectionRect.mk 0 0 1000 1).width
          = 97952 / 1000 by push_cast; norm_num]
      rw [abs_of_nonneg (by norm_num)]
      norm_num
    · rw [show ((2048 : ℤ) : ℚ) - ((100 : ℤ) : ℚ)
          * (SelectionRect.mk 0 0 1000 1).width / (SelectionRect.mk 0 0 1000 1).height
          = -97952 by push_cast; norm_num]
      rw [abs_of_nonpos (by norm_num)]
      norm_num

/-- C8 amended: for every positive selection both output dimensions stay
within the floor 100 and the cap MAX_REGION_OUTPUT_DIM; the larger-side
dimension before clamping is the 4x magnification of the corresponding
selection side capped at MAX_REGION_OUTPUT_DIM; and whenever the floor
clamp does not engage (both pre-clamp dimensions already at least 100) the
output aspect ratio matches the selection aspect ratio within the half-unit
rounding tolerance. -/
theorem region_output_size_spec (selection : SelectionRect)
    (hw : 0 < selection.width) (hh : 0 < selection.height) :
    100 ≤ (computeRegionOutputSize selection).1 ∧
    (computeRegionOutputSize selection).1 ≤ MAX_REGION_OUTPUT_DIM ∧
    100 ≤ (computeRegionOutputSize selection).2 ∧
    (computeRegionOutputSize selection).2 ≤ MAX_REGION_OUTPUT_DIM ∧
    (1 ≤ selection.width / selection.height →
      (regionPreSize selection).1
        = min MAX_REGION_OUTPUT_DIM (round (selection.width * 4))) ∧
    (¬ 1 ≤ selection.width / selection.height →
      (regionPreSize selection).2
        = min MAX_REGION_OUTPUT_DIM (round (selection.height * 4))) ∧
    (100 ≤ (regionPreSize selection).1 → 100 ≤ (regionPreSize selection).2 →
      ratioWithinRounding selection (computeRegionOutputSize selection).1
        (computeRegionOutputSize selection).2) := by
  obtain ⟨b1, b2, b3, b4⟩ := regionPreSize_bounds selection hw hh
  refine ⟨le_max_right _ _, max_le b2 (by norm_num [MAX_REGION_OUTPUT_DIM]),
    le_max_right _ _, max_le b4 (by norm_num [MAX_REGION_OUTPUT_DIM]),
    fun hb => by rw [regionPreSize_landscape selection hb],
    fun hb => by rw [regionPreSize_portrait selection hb], fun h1 h2 => ?_⟩
  have e1 : (computeRegionOutputSize selection).1 = (regionPreSize selection).1 :=
    max_eq_left h1
  have e2 : (computeRegionOutputSize selection).2 = (regionPreSize selection).2 :=
    max_eq_left h2
  rw [e1, e2]
  exact regionPreSize_ratio selection

/-- C8 amended witness: evaluated on the landscape selection 200 by 100
(output 800 by 400) and the portrait selection 100 by 200. -/
theorem region_output_size_spec_witness :
    (100 ≤ (computeRegionOutputSize ⟨0, 0, 200, 100⟩).1 ∧
      (computeRegionOutputSize ⟨0, 0, 200, 100⟩).1 ≤ MAX_REGION_OUTPUT_DIM ∧
      100 ≤ (computeRegionOutputSize ⟨0, 0, 200, 100⟩).2 ∧
      (computeRegionOutputSize ⟨0, 0, 200, 100⟩).2 ≤ MAX_REGION_OUTPUT_DIM) ∧
    (regionPreSize ⟨0, 0, 200, 100⟩).1
      = min MAX_REGION_OUTPUT_DIM (round ((200 : ℚ) * 4)) ∧
    (regionPreSize ⟨0, 0, 100, 200⟩).2
      = min MAX_REGION_OUTPUT_DIM (round ((200 : ℚ) * 4)) ∧
    ratioWithinRounding ⟨0, 0, 200, 100⟩ (computeRegionOutputSize ⟨0, 0, 200, 100⟩).1
      (computeRegionOutputSize ⟨0, 0, 200, 100⟩).2 := by
  have hl := region_output_size_spec ⟨0, 0, 200, 100⟩ (by norm_num) (by norm_num)
  have hp := region_output_size_spec ⟨0, 0, 100, 200⟩ (by norm_num) (by norm_num)
  have hpre : regionPreSize ⟨0, 0, 200, 100⟩ = (800, 400) := by
    rw [regionPreSize_landscape _ (by norm_num)]
    norm_num [MAX_REGION_OUTPUT_DIM, round_eq]
  refine ⟨⟨hl.1, hl.2.1, hl.2.2.1, hl.2.2.2.1⟩, hl.2.2.2.2.1 (by norm_num),
    hp.2.2.2.2.2.1 (by norm_num), hl.2.2.2.2.2.2 ?_ ?_⟩
  · rw [hpre]; norm_num
  · rw [hpre]; norm_num

/-- C9: the Selection Tracker rectangle, modelled from the spec, equals
the min-abs normal form and is symmetric in its endpoints, so the same two
endpoints commit the identical rectangle for all four drag directions; the
spec scenario dragging from 300,300 to 100,100 yields the rectangle with
x 100, y 100, width 200, height 200. -/
theorem selection_normalization_symmetric (anchor current : Point) :
    normalizeSelection anchor current = normalizeSelection current anchor ∧
    normalizeSelection anchor current
      = ⟨min anchor.x current.x, min anchor.y current.y,
         |current.x - anchor.x|, |current.y - anchor.y|⟩ ∧
    normalizeSelection ⟨300, 300⟩ ⟨100, 100⟩ = ⟨100, 100, 200, 200⟩ := by
  refine ⟨?_, rfl, ?_⟩
  · simp only [normalizeSelection, SelectionRect.mk.injEq]
    exact ⟨min_comm _ _, min_comm _ _, abs_sub_comm _ _, abs_sub_comm _ _⟩
  · simp only [normalizeSelection, SelectionRect.mk.injEq]
    refine ⟨by norm_num [min_def], by norm_num [min_def], ?_, ?_⟩ <;>
      · rw [show (100 : ℚ) - 300 = -200 by norm_num, abs_of_nonpos (by norm_num)]
        norm_num

end STEMNote
